import Mathlib

set_option maxHeartbeats 1000000
set_option linter.unusedSectionVars false

/-!
Shallow embedding of the priority ring buffer package `prb` (final iteration
of the Go source).  Machine `int`/`int64` values are modelled as `Int`;
array indices and sizes, which the constructor validates to be non-negative,
are modelled as `Nat`, with every modular index computation written exactly
as in the source (`(i - 1 + capacity) % capacity` becomes
`(i + capacity - 1) % capacity`, equal on the non-negative operands the code
uses).  The element slice becomes a `List` of fixed length; Go's zero value
for an element is `zeroElement`.  Locking (`ThreadSafe`) has no observable
effect on sequential state and read-only operations return no state.
-/

namespace Prb

/-- Element stored in the buffer: payload, priority, and the insertion-order
stamp (source struct `Element[T]`). -/
structure Element (T : Type) where
  Value : T
  Priority : Int
  InsertionOrder : Int
deriving DecidableEq

/-- Go zero value of `Element[T]`, the content of freshly allocated slots. -/
def zeroElement (T : Type) [Inhabited T] : Element T :=
  ⟨default, 0, 0⟩

/-- Buffer state (source struct `PriorityRingBuffer[T]`, minus the mutex). -/
structure PriorityRingBuffer (T : Type) where
  elements : List (Element T)
  capacity : Nat
  head : Nat
  tail : Nat
  size : Nat
  bubbleWindow : Nat
  orderCounter : Int
  overwriteGuard : Bool
deriving DecidableEq

/-- Construction configuration (source struct `Config`).  `Capacity` and
`BubbleWindow` are Go `int`s, hence `Int` here: `New` must reject the
negative values too. -/
structure Config where
  Capacity : Int
  BubbleWindow : Int
  OverwriteGuard : Bool
  ThreadSafe : Bool

/-- Error values.  The four named constructors model the package-level
sentinels (`ErrInvalidCapacity`, `ErrInvalidWindow`, `ErrBufferEmpty`,
`ErrBufferFull`); `errorsNew msg` models a fresh error allocated by
`errors.New(msg)` at a call site, which is a distinct Go error value from
every sentinel even when the message text coincides. -/
inductive Err where
  | ErrInvalidCapacity
  | ErrInvalidWindow
  | ErrBufferEmpty
  | ErrBufferFull
  | errorsNew (msg : String)
deriving DecidableEq

variable {T : Type} [Inhabited T]

/-- Read of `b.elements[i]` (in-range in every state the code reaches). -/
def getEl (b : PriorityRingBuffer T) (i : Nat) : Element T :=
  b.elements.getD i (zeroElement T)

/-- Source `New[T](config)`: validates capacity and window, then
zero-initialises the buffer. -/
def New (T : Type) [Inhabited T] (config : Config) :
    Except Err (PriorityRingBuffer T) :=
  if config.Capacity ≤ 0 then
    .error .ErrInvalidCapacity
  else if config.BubbleWindow < 0 ∨ config.BubbleWindow > config.Capacity - 1 then
    .error .ErrInvalidWindow
  else
    .ok
      { elements := List.replicate config.Capacity.toNat (zeroElement T)
        capacity := config.Capacity.toNat
        head := 0
        tail := 0
        size := 0
        bubbleWindow := config.BubbleWindow.toNat
        orderCounter := 0
        overwriteGuard := config.OverwriteGuard }

/-- Source `shouldSwap(current, previous)`: strictly higher priority wins,
priority ties broken by smaller insertion order. -/
def shouldSwap (current previous : Element T) : Bool :=
  decide (current.Priority > previous.Priority) ||
    (decide (current.Priority = previous.Priority) &&
      decide (current.InsertionOrder < previous.InsertionOrder))

/-- Loop body of source `bubbleElement`: `fuel` counts the remaining trips
of `for i := 1; i <= bubbleWindow && size > 0; i++`.  `size`, `capacity`
and `head` are loop-invariant in the source, so they are plain parameters;
`elems` and `insertIndex` are the mutating locals. -/
def bubbleSteps (capacity hd size : Nat) :
    Nat → List (Element T) → Nat → List (Element T)
  | 0, elems, _ => elems
  | fuel + 1, elems, insertIndex =>
    if size = 0 then elems
    else
      let previousIndex := (insertIndex + capacity - 1) % capacity
      if size = capacity ∧ previousIndex = hd then elems
      else
        let current := elems.getD insertIndex (zeroElement T)
        let previous := elems.getD previousIndex (zeroElement T)
        if shouldSwap current previous then
          bubbleSteps capacity hd size fuel
            ((elems.set insertIndex previous).set previousIndex current)
            previousIndex
        else elems

/-- Source `bubbleElement(insertIndex)`. -/
def bubbleElement (b : PriorityRingBuffer T) (insertIndex : Nat) :
    PriorityRingBuffer T :=
  { b with
      elements :=
        bubbleSteps b.capacity b.head b.size b.bubbleWindow b.elements
          insertIndex }

/-- Source `Insert(value, priority)`.  Returns the post-state together with
`some` error on guard rejection and `none` on success; the order-counter
increment precedes the guard check exactly as in the source. -/
def Insert (b : PriorityRingBuffer T) (value : T) (priority : Int) :
    PriorityRingBuffer T × Option Err :=
  let element : Element T :=
    { Value := value, Priority := priority, InsertionOrder := b.orderCounter }
  let b := { b with orderCounter := b.orderCounter + 1 }
  let overwriting := b.size == b.capacity
  let insertIndex := b.tail
  if overwriting && b.overwriteGuard &&
      decide (priority ≤ (getEl b b.head).Priority) then
    (b, some .ErrBufferFull)
  else
    let b := { b with elements := b.elements.set insertIndex element }
    let b := bubbleElement b insertIndex
    let b := { b with tail := (b.tail + 1) % b.capacity }
    let b :=
      if overwriting then { b with head := b.tail }
      else { b with size := b.size + 1 }
    (b, none)

/-- Source `Dequeue()`. -/
def Dequeue (b : PriorityRingBuffer T) :
    PriorityRingBuffer T × Except Err (Element T) :=
  if b.size = 0 then
    (b, .error .ErrBufferEmpty)
  else
    let element := getEl b b.head
    ({ b with head := (b.head + 1) % b.capacity, size := b.size - 1 },
      .ok element)

/-- Source `Peek()`. -/
def Peek (b : PriorityRingBuffer T) : Except Err (Element T) :=
  if b.size = 0 then .error .ErrBufferEmpty
  else .ok (getEl b b.head)

/-- Comparison inlined in the source's `PeekMaxPriority` scan loop
(textually the same test as `shouldSwap`, written separately because the
source inlines it rather than calling `shouldSwap`). -/
def peekCompare (candidate currMax : Element T) : Bool :=
  decide (candidate.Priority > currMax.Priority) ||
    (decide (candidate.Priority = currMax.Priority) &&
      decide (candidate.InsertionOrder < currMax.InsertionOrder))

/-- Scan loop of source `PeekMaxPriority`: walks the offsets in `is`,
keeping the raw index of the best element seen so far. -/
def maxScan (b : PriorityRingBuffer T) : List Nat → Nat → Nat
  | [], maxIndex => maxIndex
  | i :: rest, maxIndex =>
    let index := (b.head + i) % b.capacity
    let candidate := getEl b index
    let currMax := getEl b maxIndex
    if peekCompare candidate currMax then maxScan b rest index
    else maxScan b rest maxIndex

/-- Source `PeekMaxPriority()`.  The empty-buffer error is allocated by
`errors.New` in the source, not the `ErrBufferEmpty` sentinel. -/
def PeekMaxPriority (b : PriorityRingBuffer T) : Except Err (Element T) :=
  if b.size = 0 then .error (.errorsNew "buffer is empty")
  else .ok (getEl b (maxScan b (List.range' 1 (b.size - 1)) b.head))

/-- Source `Search(filters...)`: offsets (0-based logical distance from
`head`) of the live elements matching every filter, in scan order. -/
def Search (b : PriorityRingBuffer T) (filters : List (Element T → Bool)) :
    List Nat :=
  (List.range b.size).filter fun i =>
    let element := getEl b ((b.head + i) % b.capacity)
    filters.all fun filter => filter element

/-- Source `SearchByValue(value)`. -/
def SearchByValue [DecidableEq T] (value : T) : Element T → Bool :=
  fun e => e.Value == value

/-- Source `SearchByPriority(priority)`. -/
def SearchByPriority (T : Type) (priority : Int) : Element T → Bool :=
  fun e => e.Priority == priority

/-- Source `SearchByMinPriority(minPriority)`. -/
def SearchByMinPriority (T : Type) (minPriority : Int) : Element T → Bool :=
  fun e => decide (e.Priority ≥ minPriority)

/-- Source `Len()`. -/
def Len (b : PriorityRingBuffer T) : Nat :=
  b.size

/-- Live contents in logical order: the `size` elements at offsets
`0, 1, …, size-1` from `head`, wrapping modulo `capacity`. -/
def liveList (b : PriorityRingBuffer T) : List (Element T) :=
  (List.range b.size).map fun i => getEl b ((b.head + i) % b.capacity)

/-- Folding a list of `Insert` calls over a buffer state. -/
def insertSeq (b : PriorityRingBuffer T) : List (T × Int) → PriorityRingBuffer T
  | [] => b
  | (v, p) :: rest => insertSeq (Insert b v p).1 rest

/-- Structural well-formedness maintained by every operation. -/
def Inv (b : PriorityRingBuffer T) : Prop :=
  0 < b.capacity ∧ b.elements.length = b.capacity ∧ b.head < b.capacity ∧
    b.tail < b.capacity ∧ b.size ≤ b.capacity ∧
    b.tail = (b.head + b.size) % b.capacity

/-- States reachable from a successful construction through the mutating
operations (`Peek`, `PeekMaxPriority`, `Search` and `Len` return no state in
the embedding, so they preserve reachability trivially). -/
inductive Reachable : PriorityRingBuffer T → Prop where
  | init : ∀ cfg b, New T cfg = .ok b → Reachable b
  | insert : ∀ b v p, Reachable b → Reachable (Insert b v p).1
  | dequeue : ∀ b, Reachable b → Reachable (Dequeue b).1

end Prb

namespace Prb

deriving instance DecidableEq for Except

variable {T : Type} [Inhabited T]

/-! Order facts about the swap test. -/

theorem shouldSwap_irrefl (a : Element T) : shouldSwap a a = false := by
  simp [shouldSwap]

theorem shouldSwap_trans {a b c : Element T} (h1 : shouldSwap a b = true)
    (h2 : shouldSwap b c = true) : shouldSwap a c = true := by
  simp only [shouldSwap, Bool.or_eq_true, Bool.and_eq_true, decide_eq_true_eq] at *
  rcases h1 with h1 | ⟨h1, h1o⟩ <;> rcases h2 with h2 | ⟨h2, h2o⟩ <;>
    [left; left; left; right] <;> omega

theorem shouldSwap_false_trans {a b c : Element T} (h1 : shouldSwap a b = false)
    (h2 : shouldSwap b c = false) : shouldSwap a c = false := by
  simp only [shouldSwap, Bool.or_eq_false_iff, Bool.and_eq_false_iff,
    decide_eq_false_iff_not, not_lt] at *
  constructor
  · omega
  · rcases h1.2 with h1o | h1o <;> rcases h2.2 with h2o | h2o
    · left; omega
    · left; omega
    · left; omega
    · by_cases hp : a.Priority = c.Priority
      · right; omega
      · left; exact hp

theorem peekCompare_eq_shouldSwap (candidate currMax : Element T) :
    peekCompare candidate currMax = shouldSwap candidate currMax := rfl

/-! Permutation facts about `List.set`-based swapping. -/

theorem perm_getD_eraseIdx (l : List α) (i : Nat) (d : α) (h : i < l.length) :
    l.Perm (l.getD i d :: l.eraseIdx i) := by
  induction l generalizing i with
  | nil => simp at h
  | cons a t ih =>
    cases i with
    | zero => simp [List.getD]
    | succ i =>
      simp only [List.length_cons, Nat.succ_lt_succ_iff] at h
      simp only [List.getD_cons_succ, List.eraseIdx_cons_succ]
      exact ((ih i h).cons a).trans (List.Perm.swap _ _ _)

theorem set_perm_cons_eraseIdx (l : List α) (i : Nat) (a : α) (h : i < l.length) :
    (l.set i a).Perm (a :: l.eraseIdx i) := by
  induction l generalizing i with
  | nil => simp at h
  | cons x t ih =>
    cases i with
    | zero => simp
    | succ i =>
      simp only [List.length_cons, Nat.succ_lt_succ_iff] at h
      simp only [List.set_cons_succ, List.eraseIdx_cons_succ]
      exact ((ih i h).cons x).trans (List.Perm.swap _ _ _)

theorem swap_perm (l : List α) (i j : Nat) (d : α) (hi : i < l.length)
    (hj : j < l.length) :
    ((l.set i (l.getD j d)).set j (l.getD i d)).Perm l := by
  induction l generalizing i j with
  | nil => simp at hi
  | cons a t ih =>
    cases i with
    | zero =>
      cases j with
      | zero => simp [List.getD]
      | succ j =>
        simp only [List.length_cons, Nat.succ_lt_succ_iff] at hj
        simp only [List.getD_cons_zero, List.getD_cons_succ, List.set_cons_zero,
          List.set_cons_succ]
        refine ((set_perm_cons_eraseIdx t j a hj).cons _).trans ?_
        exact (List.Perm.swap _ _ _).trans
          (((perm_getD_eraseIdx t j d hj).symm).cons a)
    | succ i =>
      cases j with
      | zero =>
        simp only [List.length_cons, Nat.succ_lt_succ_iff] at hi
        simp only [List.getD_cons_zero, List.getD_cons_succ, List.set_cons_zero,
          List.set_cons_succ]
        refine ((set_perm_cons_eraseIdx t i a hi).cons _).trans ?_
        exact (List.Perm.swap _ _ _).trans
          (((perm_getD_eraseIdx t i d hi).symm).cons a)
      | succ j =>
        simp only [List.length_cons, Nat.succ_lt_succ_iff] at hi hj
        simp only [List.getD_cons_succ, List.set_cons_succ]
        exact (ih i j hi hj).cons a

end Prb

namespace Prb

variable {T : Type} [Inhabited T]

/-! Facts about the bubble walk. -/

theorem bubbleSteps_length (capacity hd size fuel : Nat)
    (elems : List (Element T)) (i : Nat) :
    (bubbleSteps capacity hd size fuel elems i).length = elems.length := by
  induction fuel generalizing elems i with
  | zero => rfl
  | succ fuel ih =>
    simp only [bubbleSteps]
    split
    · rfl
    · split
      · rfl
      · split
        · rw [ih]; simp
        · rfl

theorem bubbleSteps_perm (capacity hd size fuel : Nat)
    (elems : List (Element T)) (i : Nat) (hcap : 0 < capacity)
    (hlen : elems.length = capacity) (hi : i < capacity) :
    (bubbleSteps capacity hd size fuel elems i).Perm elems := by
  induction fuel generalizing elems i with
  | zero => exact List.Perm.refl _
  | succ fuel ih =>
    simp only [bubbleSteps]
    split
    · exact List.Perm.refl _
    · split
      · exact List.Perm.refl _
      · split
        · refine (ih _ _ ?_ ?_).trans ?_
          · simp [hlen]
          · exact Nat.mod_lt _ hcap
          · have h1 : i < elems.length := by omega
            have h2 : (i + capacity - 1) % capacity < elems.length := by
              rw [hlen]; exact Nat.mod_lt _ hcap
            exact swap_perm elems i _ (zeroElement T) h1 h2
        · exact List.Perm.refl _

theorem bubbleSteps_size_zero (capacity hd fuel : Nat)
    (elems : List (Element T)) (i : Nat) :
    bubbleSteps capacity hd 0 fuel elems i = elems := by
  cases fuel <;> simp [bubbleSteps]

end Prb

namespace Prb

variable {T : Type} [Inhabited T]

/-! Facts about slot reads and the live region. -/

theorem getD_set_self (l : List α) (i : Nat) (a d : α) (h : i < l.length) :
    (l.set i a).getD i d = a := by
  rw [List.getD_eq_getElem, List.getElem_set_self]
  simpa using h

theorem liveList_length (b : PriorityRingBuffer T) :
    (liveList b).length = b.size := by
  simp [liveList]

theorem liveList_getD (b : PriorityRingBuffer T) (i : Nat) (h : i < b.size) :
    (liveList b).getD i (zeroElement T) =
      getEl b ((b.head + i) % b.capacity) := by
  rw [List.getD_eq_getElem]
  · simp [liveList]
  · simpa [liveList] using h

theorem liveList_mem (b : PriorityRingBuffer T) (i : Nat) (h : i < b.size) :
    getEl b ((b.head + i) % b.capacity) ∈ liveList b := by
  simp only [liveList, List.mem_map]
  exact ⟨i, List.mem_range.mpr h, rfl⟩

theorem liveList_full_eq_rotate (b : PriorityRingBuffer T)
    (hlen : b.elements.length = b.capacity) (hsize : b.size = b.capacity) :
    liveList b = b.elements.rotate b.head := by
  apply List.ext_get
  · simp [liveList, hsize, hlen]
  · intro n h1 h2
    have hcap : 0 < b.capacity := by
      simp only [List.length_rotate, hlen] at h2
      have := h2
      omega
    rw [List.get_rotate]
    simp only [liveList, List.get_eq_getElem, List.getElem_map,
      List.getElem_range, getEl]
    rw [List.getD_eq_getElem]
    · simp only [hlen]
      have h3 : (b.head + n) % b.capacity = (n + b.head) % b.capacity := by
        rw [Nat.add_comm]
      simp only [h3]
    · rw [hlen]
      exact Nat.mod_lt _ hcap

theorem liveList_full_perm (b : PriorityRingBuffer T)
    (hlen : b.elements.length = b.capacity) (hsize : b.size = b.capacity) :
    (liveList b).Perm b.elements := by
  rw [liveList_full_eq_rotate b hlen hsize]
  exact List.rotate_perm _ _

theorem liveList_cons (b : PriorityRingBuffer T) (hs : 0 < b.size)
    (hh : b.head < b.capacity) :
    liveList b = getEl b b.head ::
      ((List.range' 1 (b.size - 1)).map
        fun i => getEl b ((b.head + i) % b.capacity)) := by
  obtain ⟨k, hk⟩ : ∃ k, b.size = k + 1 := ⟨b.size - 1, by omega⟩
  simp only [liveList, hk, List.range_eq_range', List.range'_succ 0 k 1,
    List.map_cons]
  congr 2
  rw [Nat.add_zero, Nat.mod_eq_of_lt hh]

end Prb

namespace Prb

variable {T : Type} [Inhabited T]

/-! Characterisation of `Insert`, and preservation of `Inv`. -/

theorem insert_reject (b : PriorityRingBuffer T) (v : T) (p : Int)
    (h : ((b.size == b.capacity) && b.overwriteGuard &&
      decide (p ≤ (getEl b b.head).Priority)) = true) :
    Insert b v p = ({ b with orderCounter := b.orderCounter + 1 },
      some .ErrBufferFull) := by
  simp only [Insert]
  rw [if_pos]
  exact h

theorem insert_accept (b : PriorityRingBuffer T) (v : T) (p : Int)
    (h : ((b.size == b.capacity) && b.overwriteGuard &&
      decide (p ≤ (getEl b b.head).Priority)) = false) :
    Insert b v p =
      ({ b with
          elements := bubbleSteps b.capacity b.head b.size b.bubbleWindow
            (b.elements.set b.tail ⟨v, p, b.orderCounter⟩) b.tail,
          head := if b.size == b.capacity then (b.tail + 1) % b.capacity
            else b.head,
          tail := (b.tail + 1) % b.capacity,
          size := if b.size == b.capacity then b.size else b.size + 1,
          orderCounter := b.orderCounter + 1 }, none) := by
  simp only [Insert, bubbleElement]
  rw [if_neg]
  · by_cases hov : (b.size == b.capacity) = true
    · simp [hov]
    · simp only [Bool.not_eq_true] at hov
      simp [hov]
  · simp only [Bool.not_eq_true]
    exact h

theorem inv_new (cfg : Config) (b : PriorityRingBuffer T)
    (h : New T cfg = .ok b) : Inv b := by
  unfold New at h
  split at h
  · exact absurd h (by simp)
  · split at h
    · exact absurd h (by simp)
    · rename_i h1 h2
      simp only [Except.ok.injEq] at h
      subst h
      refine ⟨by simp; omega, by simp, by simp; omega, by simp; omega,
        by simp, by simp⟩

theorem inv_insert (b : PriorityRingBuffer T) (v : T) (p : Int)
    (hb : Inv b) : Inv (Insert b v p).1 := by
  obtain ⟨hc, hl, hh, ht, hs, hte⟩ := hb
  by_cases hcond : ((b.size == b.capacity) && b.overwriteGuard &&
      decide (p ≤ (getEl b b.head).Priority)) = true
  · rw [insert_reject b v p hcond]
    exact ⟨hc, hl, hh, ht, hs, hte⟩
  · rw [insert_accept b v p (by simpa using hcond)]
    have hlen2 : (bubbleSteps b.capacity b.head b.size b.bubbleWindow
        (b.elements.set b.tail ⟨v, p, b.orderCounter⟩) b.tail).length =
        b.capacity := by
      rw [bubbleSteps_length, List.length_set, hl]
    by_cases hov : (b.size == b.capacity) = true
    · have hsc : b.size = b.capacity := by simpa using hov
      have h5 : (if (b.size == b.capacity) = true
          then (b.tail + 1) % b.capacity else b.head) =
          (b.tail + 1) % b.capacity := if_pos hov
      have h6 : (if (b.size == b.capacity) = true
          then b.size else b.size + 1) = b.size := if_pos hov
      refine ⟨hc, hlen2, ?_, Nat.mod_lt _ hc, ?_, ?_⟩
      · show (if (b.size == b.capacity) = true
            then (b.tail + 1) % b.capacity else b.head) < b.capacity
        rw [h5]
        exact Nat.mod_lt _ hc
      · show (if (b.size == b.capacity) = true
            then b.size else b.size + 1) ≤ b.capacity
        rw [h6]
        exact hs
      · show (b.tail + 1) % b.capacity =
          ((if (b.size == b.capacity) = true
            then (b.tail + 1) % b.capacity else b.head) +
          (if (b.size == b.capacity) = true
            then b.size else b.size + 1)) % b.capacity
        rw [h5, h6, hsc, Nat.add_mod_right]
        exact (Nat.mod_eq_of_lt (Nat.mod_lt _ hc)).symm
    · have hne : b.size ≠ b.capacity := by simpa using hov
      have h5 : (if (b.size == b.capacity) = true
          then (b.tail + 1) % b.capacity else b.head) = b.head := if_neg hov
      have h6 : (if (b.size == b.capacity) = true
          then b.size else b.size + 1) = b.size + 1 := if_neg hov
      refine ⟨hc, hlen2, ?_, Nat.mod_lt _ hc, ?_, ?_⟩
      · show (if (b.size == b.capacity) = true
            then (b.tail + 1) % b.capacity else b.head) < b.capacity
        rw [h5]
        exact hh
      · show (if (b.size == b.capacity) = true
            then b.size else b.size + 1) ≤ b.capacity
        rw [h6]
        omega
      · show (b.tail + 1) % b.capacity =
          ((if (b.size == b.capacity) = true
            then (b.tail + 1) % b.capacity else b.head) +
          (if (b.size == b.capacity) = true
            then b.size else b.size + 1)) % b.capacity
        rw [h5, h6, hte, Nat.mod_add_mod, Nat.add_assoc]

theorem inv_dequeue (b : PriorityRingBuffer T) (hb : Inv b) :
    Inv (Dequeue b).1 := by
  obtain ⟨hc, hl, hh, ht, hs, hte⟩ := hb
  simp only [Dequeue]
  split
  · exact ⟨hc, hl, hh, ht, hs, hte⟩
  · rename_i hsz
    refine ⟨hc, hl, Nat.mod_lt _ hc, ht, ?_, ?_⟩
    · show b.size - 1 ≤ b.capacity
      omega
    · show b.tail = ((b.head + 1) % b.capacity + (b.size - 1)) % b.capacity
      rw [Nat.mod_add_mod]
      have h4 : b.head + 1 + (b.size - 1) = b.head + b.size := by omega
      rw [h4, ← hte]

theorem reachable_inv (b : PriorityRingBuffer T) (h : Reachable b) :
    Inv b := by
  induction h with
  | init cfg b h => exact inv_new cfg b h
  | insert b v p _ ih => exact inv_insert b v p ih
  | dequeue b _ ih => exact inv_dequeue b ih

end Prb

namespace Prb

variable {T : Type} [Inhabited T]

/-! Specification of the `PeekMaxPriority` scan loop. -/

theorem maxScan_spec (b : PriorityRingBuffer T) (is : List Nat) (m0 : Nat) :
    (maxScan b is m0 = m0 ∨
      ∃ i ∈ is, maxScan b is m0 = (b.head + i) % b.capacity) ∧
    shouldSwap (getEl b m0) (getEl b (maxScan b is m0)) = false ∧
    ∀ i ∈ is, shouldSwap (getEl b ((b.head + i) % b.capacity))
      (getEl b (maxScan b is m0)) = false := by
  induction is generalizing m0 with
  | nil =>
    refine ⟨Or.inl rfl, ?_, by simp⟩
    simp [maxScan, shouldSwap_irrefl]
  | cons i rest ih =>
    by_cases hsw : peekCompare (getEl b ((b.head + i) % b.capacity))
        (getEl b m0) = true
    · have hms : maxScan b (i :: rest) m0 =
          maxScan b rest ((b.head + i) % b.capacity) := by
        simp only [maxScan]
        rw [if_pos hsw]
      obtain ⟨ih1, ih2, ih3⟩ := ih ((b.head + i) % b.capacity)
      rw [hms]
      rw [peekCompare_eq_shouldSwap] at hsw
      refine ⟨?_, ?_, ?_⟩
      · rcases ih1 with h | ⟨j, hj, hmj⟩
        · exact Or.inr ⟨i, List.mem_cons_self i rest, h⟩
        · exact Or.inr ⟨j, List.mem_cons_of_mem i hj, hmj⟩
      · by_contra hcur
        rw [Bool.not_eq_false] at hcur
        have h7 := shouldSwap_trans hsw hcur
        rw [ih2] at h7
        cases h7
      · intro j hj
        rcases List.mem_cons.mp hj with rfl | hj2
        · exact ih2
        · exact ih3 j hj2
    · have hms : maxScan b (i :: rest) m0 = maxScan b rest m0 := by
        simp only [maxScan]
        rw [if_neg hsw]
      rw [Bool.not_eq_true] at hsw
      rw [peekCompare_eq_shouldSwap] at hsw
      obtain ⟨ih1, ih2, ih3⟩ := ih m0
      rw [hms]
      refine ⟨?_, ih2, ?_⟩
      · rcases ih1 with h | ⟨j, hj, hmj⟩
        · exact Or.inl h
        · exact Or.inr ⟨j, List.mem_cons_of_mem i hj, hmj⟩
      · intro j hj
        rcases List.mem_cons.mp hj with rfl | hj2
        · exact shouldSwap_false_trans hsw ih2
        · exact ih3 j hj2

/-! Order-counter bookkeeping. -/

theorem insert_orderCounter (b : PriorityRingBuffer T) (v : T) (p : Int) :
    (Insert b v p).1.orderCounter = b.orderCounter + 1 := by
  by_cases hcond : ((b.size == b.capacity) && b.overwriteGuard &&
      decide (p ≤ (getEl b b.head).Priority)) = true
  · rw [insert_reject b v p hcond]
  · rw [insert_accept b v p (by simpa using hcond)]

theorem insertSeq_orderCounter (b : PriorityRingBuffer T)
    (ops : List (T × Int)) :
    (insertSeq b ops).orderCounter = b.orderCounter + ops.length := by
  induction ops generalizing b with
  | nil => simp [insertSeq]
  | cons op rest ih =>
    obtain ⟨v, p⟩ := op
    simp only [insertSeq]
    rw [ih, insert_orderCounter]
    simp only [List.length_cons]
    push_cast
    ring

theorem insert_mem_elements (b : PriorityRingBuffer T) (v : T) (p : Int)
    (hb : Inv b) (hacc : (Insert b v p).2 = none) :
    (⟨v, p, b.orderCounter⟩ : Element T) ∈ (Insert b v p).1.elements := by
  obtain ⟨hc, hl, hh, ht, hs, hte⟩ := hb
  by_cases hcond : ((b.size == b.capacity) && b.overwriteGuard &&
      decide (p ≤ (getEl b b.head).Priority)) = true
  · rw [insert_reject b v p hcond] at hacc
    cases hacc
  · rw [insert_accept b v p (by simpa using hcond)]
    show (⟨v, p, b.orderCounter⟩ : Element T) ∈
      bubbleSteps b.capacity b.head b.size b.bubbleWindow
        (b.elements.set b.tail ⟨v, p, b.orderCounter⟩) b.tail
    have hperm := bubbleSteps_perm b.capacity b.head b.size b.bubbleWindow
      (b.elements.set b.tail ⟨v, p, b.orderCounter⟩) b.tail hc
      (by rw [List.length_set, hl]) ht
    refine hperm.mem_iff.mpr ?_
    have htl : b.tail <
        (b.elements.set b.tail (⟨v, p, b.orderCounter⟩ : Element T)).length := by
      rw [List.length_set, hl]
      exact ht
    have h8 := List.getElem_mem htl
    rwa [List.getElem_set_self] at h8

end Prb

namespace Prb

variable {T : Type} [Inhabited T]

/-- Claim C4: every operation preserves the invariants `0 ≤ size ≤ capacity`
(the lower bound is inherent in the `Nat` model) and `size = capacity →
head = tail`; they hold in every state reachable from a successful
construction through `Insert` and `Dequeue` (`Peek`, `PeekMaxPriority`,
`Search` and `Len` return no mutated state in the embedding, so they
preserve every state property trivially). -/
theorem claim4_reachable_invariants (b : PriorityRingBuffer T)
    (h : Reachable b) :
    b.size ≤ b.capacity ∧ (b.size = b.capacity → b.head = b.tail) := by
  obtain ⟨hc, hl, hh, ht, hs, hte⟩ := reachable_inv b h
  refine ⟨hs, fun hfull => ?_⟩
  rw [hte, hfull, Nat.add_mod_right, Nat.mod_eq_of_lt hh]

/-- Witness for C4 at a freshly constructed capacity-2 buffer. -/
theorem claim4_witness :
    (⟨List.replicate 2 (zeroElement Nat), 2, 0, 0, 0, 1, 0, false⟩ :
      PriorityRingBuffer Nat).size ≤
    (⟨List.replicate 2 (zeroElement Nat), 2, 0, 0, 0, 1, 0, false⟩ :
      PriorityRingBuffer Nat).capacity ∧
    ((⟨List.replicate 2 (zeroElement Nat), 2, 0, 0, 0, 1, 0, false⟩ :
      PriorityRingBuffer Nat).size =
    (⟨List.replicate 2 (zeroElement Nat), 2, 0, 0, 0, 1, 0, false⟩ :
      PriorityRingBuffer Nat).capacity →
    (⟨List.replicate 2 (zeroElement Nat), 2, 0, 0, 0, 1, 0, false⟩ :
      PriorityRingBuffer Nat).head =
    (⟨List.replicate 2 (zeroElement Nat), 2, 0, 0, 0, 1, 0, false⟩ :
      PriorityRingBuffer Nat).tail) :=
  claim4_reachable_invariants _ (Reachable.init ⟨2, 1, false, false⟩ _ rfl)

/-- Claim C9: construction fails with `ErrInvalidCapacity` iff
`capacity ≤ 0`, fails with `ErrInvalidWindow` iff `capacity > 0` and the
window lies outside `[0, capacity-1]` (so `bubble_window = capacity` is
rejected), and otherwise yields `capacity` zero slots with `head`, `tail`,
`size` and the insertion counter all zero. -/
theorem claim9_construction_validation (cfg : Config) :
    (New T cfg = .error .ErrInvalidCapacity ↔ cfg.Capacity ≤ 0) ∧
    (New T cfg = .error .ErrInvalidWindow ↔
      0 < cfg.Capacity ∧
        (cfg.BubbleWindow < 0 ∨ cfg.Capacity - 1 < cfg.BubbleWindow)) ∧
    (0 < cfg.Capacity → 0 ≤ cfg.BubbleWindow →
      cfg.BubbleWindow ≤ cfg.Capacity - 1 →
      New T cfg = .ok
        { elements := List.replicate cfg.Capacity.toNat (zeroElement T)
          capacity := cfg.Capacity.toNat
          head := 0
          tail := 0
          size := 0
          bubbleWindow := cfg.BubbleWindow.toNat
          orderCounter := 0
          overwriteGuard := cfg.OverwriteGuard }) := by
  unfold New
  split_ifs with h1 h2
  · refine ⟨⟨fun _ => h1, fun _ => rfl⟩, ⟨?_, ?_⟩, ?_⟩
    · intro h
      simp at h
    · intro h
      obtain ⟨hcap, _⟩ := h
      omega
    · intro hcap _ _
      omega
  · refine ⟨⟨?_, ?_⟩, ⟨fun _ => ⟨by omega, ?_⟩, fun _ => rfl⟩, ?_⟩
    · intro h
      simp at h
    · intro h
      omega
    · exact h2
    · intro _ h3 h4
      rcases h2 with h2 | h2 <;> omega
  · refine ⟨⟨?_, ?_⟩, ⟨?_, ?_⟩, fun _ _ _ => rfl⟩
    · intro h
      simp at h
    · intro h
      omega
    · intro h
      simp at h
    · intro h
      rw [not_or] at h2
      obtain ⟨hcap, hw⟩ := h
      rcases hw with hw | hw <;> omega

/-- Witness for C9 at the two configurations named by the spec
(`Capacity = 0`, and `BubbleWindow = Capacity` with capacity 2). -/
theorem claim9_witness :
    New Nat ⟨0, 0, true, false⟩ = .error .ErrInvalidCapacity ∧
    New Nat ⟨2, 2, true, false⟩ = .error .ErrInvalidWindow :=
  ⟨(claim9_construction_validation ⟨0, 0, true, false⟩).1.mpr (by decide),
   (claim9_construction_validation ⟨2, 2, true, false⟩).2.1.mpr (by decide)⟩

/-- Claim C5 (code bug): on an empty buffer, `Dequeue` and `Peek` fail with
the `ErrBufferEmpty` sentinel and leave the state unchanged, but
`PeekMaxPriority` allocates a fresh `errors.New` value that is a different
error value (kind) from the `ErrBufferEmpty` sentinel even though the
message text coincides, contradicting the claim that all three fail with
the BufferEmpty kind. -/
theorem claim5_empty_buffer_error_kinds :
    ((New Nat ⟨2, 1, false, false⟩).map fun b =>
      ((Dequeue b).1 == b, (Dequeue b).2, Peek b, PeekMaxPriority b)) =
      .ok (true, .error .ErrBufferEmpty, .error .ErrBufferEmpty,
        .error (.errorsNew "buffer is empty")) ∧
    Err.errorsNew "buffer is empty" ≠ Err.ErrBufferEmpty := by
  exact ⟨rfl, by decide⟩

/-- Claim C1 (code bug): with capacity 3, `BubbleWindow = 2 = capacity-1`,
and strictly increasing priorities 10 then 20 inserted into a fresh buffer,
`PeekMaxPriority` after the second insert returns the first element
(priority 10), not the most recently inserted one (priority 20): the bubble
walk's stop-at-head check applies only when the buffer is full, so the new
element is swapped past `head` into a dead slot. -/
theorem claim1_peekMax_after_increasing_inserts :
    ((New Nat ⟨3, 2, false, false⟩).map fun b0 =>
      PeekMaxPriority (Insert (Insert b0 1 10).1 2 20).1) =
      .ok (.ok ⟨1, 10, 0⟩) ∧
    (⟨1, 10, 0⟩ : Element Nat) ≠ ⟨2, 20, 1⟩ := by
  exact ⟨rfl, by decide⟩

/-- Claim C2 (code bug): a successful insert into a buffer with
`0 < size < capacity` (here size 1, capacity 3) can lose the new element
from the live region: the walk past `head` leaves the live slots holding
the zero element and the old element, so the live multiset is not the old
live multiset plus the inserted element, and the inserted element
`⟨2, 20, 1⟩` is not live. -/
theorem claim2_insert_live_multiset :
    ((New Nat ⟨3, 2, false, false⟩).map fun b0 =>
      ((Insert b0 1 10).1.size, (Insert b0 1 10).1.capacity,
        (Insert (Insert b0 1 10).1 2 20).2,
        liveList (Insert (Insert b0 1 10).1 2 20).1)) =
      .ok (1, 3, none, [⟨0, 0, 0⟩, ⟨1, 10, 0⟩]) ∧
    (⟨2, 20, 1⟩ : Element Nat) ∉
      ([⟨0, 0, 0⟩, ⟨1, 10, 0⟩] : List (Element Nat)) := by
  exact ⟨rfl, by decide⟩

end Prb

namespace Prb

variable {T : Type} [Inhabited T]

/-- Claim C7: on a non-empty buffer, `PeekMaxPriority` returns a live
element that no live element beats under the swap relation (strictly
greater priority, or equal priority with strictly smaller insertion order)
— i.e. the greatest-priority live element with priority ties broken in
favour of the smaller insertion order — and the comparison it scans with is
the same test as the local-reorder `shouldSwap`; the operation returns no
mutated state in the embedding. -/
theorem claim7_peekMax_correct (b : PriorityRingBuffer T)
    (hc : 0 < b.capacity) (hh : b.head < b.capacity) (hs : 0 < b.size) :
    (∃ e, PeekMaxPriority b = .ok e ∧ e ∈ liveList b ∧
      ∀ x ∈ liveList b, shouldSwap x e = false) ∧
    ∀ candidate currMax : Element T,
      peekCompare candidate currMax = shouldSwap candidate currMax := by
  refine ⟨?_, fun _ _ => rfl⟩
  obtain ⟨h1, h2, h3⟩ := maxScan_spec b (List.range' 1 (b.size - 1)) b.head
  refine ⟨getEl b (maxScan b (List.range' 1 (b.size - 1)) b.head), ?_, ?_, ?_⟩
  · unfold PeekMaxPriority
    rw [if_neg (by omega)]
  · rcases h1 with h | ⟨i, hi, hmi⟩
    · rw [h]
      have h0 : b.head = (b.head + 0) % b.capacity := by
        rw [Nat.add_zero, Nat.mod_eq_of_lt hh]
      rw [h0]
      exact liveList_mem b 0 hs
    · rw [hmi]
      have hilt : i < b.size := by
        have := List.mem_range'_1.mp hi
        omega
      exact liveList_mem b i hilt
  · intro x hx
    simp only [liveList, List.mem_map, List.mem_range] at hx
    obtain ⟨i, hilt, rfl⟩ := hx
    rcases Nat.eq_zero_or_pos i with rfl | hipos
    · have h0 : (b.head + 0) % b.capacity = b.head := by
        rw [Nat.add_zero, Nat.mod_eq_of_lt hh]
      rw [h0]
      exact h2
    · exact h3 i (List.mem_range'_1.mpr ⟨hipos, by omega⟩)

/-- Witness for C7 at a concrete buffer whose two live elements tie on
priority: the earlier-inserted one is reported. -/
theorem claim7_witness :
    (∃ e, PeekMaxPriority
        (⟨[⟨1, 5, 0⟩, ⟨2, 5, 1⟩], 2, 0, 0, 2, 1, 2, true⟩ :
          PriorityRingBuffer Nat) = .ok e ∧
      e ∈ liveList (⟨[⟨1, 5, 0⟩, ⟨2, 5, 1⟩], 2, 0, 0, 2, 1, 2, true⟩ :
          PriorityRingBuffer Nat) ∧
      ∀ x ∈ liveList (⟨[⟨1, 5, 0⟩, ⟨2, 5, 1⟩], 2, 0, 0, 2, 1, 2, true⟩ :
          PriorityRingBuffer Nat), shouldSwap x e = false) ∧
    ∀ candidate currMax : Element Nat,
      peekCompare candidate currMax = shouldSwap candidate currMax :=
  claim7_peekMax_correct
    (⟨[⟨1, 5, 0⟩, ⟨2, 5, 1⟩], 2, 0, 0, 2, 1, 2, true⟩ :
      PriorityRingBuffer Nat) (by decide) (by decide) (by decide)

/-- Claim C8: `Search` returns exactly the 0-based logical offsets from
`head` of the live elements satisfying every supplied filter, in increasing
scan order; the empty filter list matches every live element; `Search`
returns no mutated state in the embedding; and on live priorities
`[5, 15, 10]` a minimum-priority-10 filter yields offsets `[1, 2]`. -/
theorem claim8_search_correct :
    (∀ (b : PriorityRingBuffer T) (filters : List (Element T → Bool))
      (i : Nat), i ∈ Search b filters ↔ i < b.size ∧
        ∀ f ∈ filters, f ((liveList b).getD i (zeroElement T)) = true) ∧
    (∀ (b : PriorityRingBuffer T) (filters : List (Element T → Bool)),
      (Search b filters).Sorted (· < ·)) ∧
    (∀ b : PriorityRingBuffer T, Search b [] = List.range b.size) ∧
    ((New Nat ⟨3, 0, false, false⟩).map fun b0 =>
      Search (Insert (Insert (Insert b0 1 5).1 2 15).1 3 10).1
        [SearchByMinPriority Nat 10]) = .ok [1, 2] := by
  refine ⟨?_, ?_, ?_, rfl⟩
  · intro b filters i
    simp only [Search, List.mem_filter, List.mem_range, List.all_eq_true]
    constructor
    · rintro ⟨hi, hall⟩
      refine ⟨hi, fun f hf => ?_⟩
      rw [liveList_getD b i hi]
      exact hall f hf
    · rintro ⟨hi, hall⟩
      refine ⟨hi, fun f hf => ?_⟩
      have := hall f hf
      rwa [liveList_getD b i hi] at this
  · intro b filters
    exact List.Pairwise.sublist (List.filter_sublist _)
      (List.pairwise_lt_range b.size)
  · intro b
    simp [Search]

end Prb

namespace Prb

variable {T : Type} [Inhabited T]

/-- Claim C10: on an empty well-formed buffer, `Insert` succeeds and an
immediate `Dequeue` succeeds and returns exactly the inserted element —
same value, same priority, and the insertion order assigned at insert time
(the pre-insert counter value). -/
theorem claim10_round_trip (b : PriorityRingBuffer T) (v : T) (p : Int)
    (hb : Inv b) (h0 : b.size = 0) :
    (Insert b v p).2 = none ∧
    (Dequeue (Insert b v p).1).2 =
      .ok (⟨v, p, b.orderCounter⟩ : Element T) := by
  obtain ⟨hc, hl, hh, ht, hs, hte⟩ := hb
  have hth : b.tail = b.head := by
    rw [hte, h0, Nat.add_zero, Nat.mod_eq_of_lt hh]
  have hov : (b.size == b.capacity) = false := by
    simp only [beq_eq_false_iff_ne]
    omega
  have hcond : ((b.size == b.capacity) && b.overwriteGuard &&
      decide (p ≤ (getEl b b.head).Priority)) = false := by
    rw [hov]
    rfl
  have h5 : (if (b.size == b.capacity) = true
      then (b.tail + 1) % b.capacity else b.head) = b.head :=
    if_neg (by rw [hov]; exact Bool.false_ne_true)
  have h6 : (if (b.size == b.capacity) = true
      then b.size else b.size + 1) = b.size + 1 :=
    if_neg (by rw [hov]; exact Bool.false_ne_true)
  have hins : (Insert b v p).1 =
      { b with
          elements := b.elements.set b.tail ⟨v, p, b.orderCounter⟩,
          tail := (b.tail + 1) % b.capacity,
          size := 1,
          orderCounter := b.orderCounter + 1 } := by
    rw [insert_accept b v p hcond, h5, h6, h0]
    rw [bubbleSteps_size_zero]
  refine ⟨?_, ?_⟩
  · rw [insert_accept b v p hcond]
  · rw [hins]
    simp only [Dequeue]
    rw [if_neg (by omega : ¬(1 = 0))]
    show Except.ok ((b.elements.set b.tail
        (⟨v, p, b.orderCounter⟩ : Element T)).getD b.head (zeroElement T)) =
      Except.ok (⟨v, p, b.orderCounter⟩ : Element T)
    rw [hth, getD_set_self]
    rw [hl]
    exact hh

/-- Witness for C10: inserting value 7 with priority 42 into a fresh
capacity-2 buffer and dequeuing returns exactly that element with
insertion order 0. -/
theorem claim10_witness :
    (Insert (⟨List.replicate 2 (zeroElement Nat), 2, 0, 0, 0, 1, 0, false⟩ :
      PriorityRingBuffer Nat) 7 42).2 = none ∧
    (Dequeue (Insert
      (⟨List.replicate 2 (zeroElement Nat), 2, 0, 0, 0, 1, 0, false⟩ :
        PriorityRingBuffer Nat) 7 42).1).2 =
      .ok (⟨7, 42, 0⟩ : Element Nat) :=
  claim10_round_trip
    (⟨List.replicate 2 (zeroElement Nat), 2, 0, 0, 0, 1, 0, false⟩ :
      PriorityRingBuffer Nat) 7 42
    ⟨by decide, by decide, by decide, by decide, by decide, by decide⟩ rfl

/-- Claim C6: every `Insert` stamps the new element with the current
insertion counter and increments the counter by exactly one,
unconditionally and before the overwrite-guard check: the post-state
counter is always the pre-state counter plus one, a guard-rejected insert
changes nothing but the counter (so the rejected call still consumes a
counter value), a successful insert stores the element stamped with the
pre-call counter, a sequence of `n` inserts adds `n` to the counter, and
from a fresh buffer (counter 0) the counter equals the number of `Insert`
calls made, accepted or rejected. -/
theorem claim6_insertion_counter :
    (∀ (b : PriorityRingBuffer T) (v : T) (p : Int),
      (Insert b v p).1.orderCounter = b.orderCounter + 1) ∧
    (∀ (b : PriorityRingBuffer T) (v : T) (p : Int),
      (Insert b v p).2 = some .ErrBufferFull →
      (Insert b v p).1 = { b with orderCounter := b.orderCounter + 1 }) ∧
    (∀ (b : PriorityRingBuffer T) (v : T) (p : Int), Inv b →
      (Insert b v p).2 = none →
      (⟨v, p, b.orderCounter⟩ : Element T) ∈ (Insert b v p).1.elements) ∧
    (∀ (b : PriorityRingBuffer T) (ops : List (T × Int)),
      (insertSeq b ops).orderCounter = b.orderCounter + ops.length) ∧
    (∀ (cfg : Config) (b0 : PriorityRingBuffer T), New T cfg = .ok b0 →
      ∀ ops : List (T × Int), (insertSeq b0 ops).orderCounter = ops.length) := by
  refine ⟨insert_orderCounter, ?_, insert_mem_elements, insertSeq_orderCounter, ?_⟩
  · intro b v p hrej
    by_cases hcond : ((b.size == b.capacity) && b.overwriteGuard &&
        decide (p ≤ (getEl b b.head).Priority)) = true
    · rw [insert_reject b v p hcond]
    · rw [insert_accept b v p (by simpa using hcond)] at hrej
      cases hrej
  · intro cfg b0 h ops
    have h0 : b0.orderCounter = 0 := by
      unfold New at h
      by_cases h1 : cfg.Capacity ≤ 0
      · rw [if_pos h1] at h
        simp at h
      · rw [if_neg h1] at h
        by_cases h2 : cfg.BubbleWindow < 0 ∨ cfg.BubbleWindow > cfg.Capacity - 1
        · rw [if_pos h2] at h
          simp at h
        · rw [if_neg h2] at h
          simp only [Except.ok.injEq] at h
          rw [← h]
    rw [insertSeq_orderCounter, h0, zero_add]


/-- Witness for C6: a guard-rejected insert on a full guarded buffer leaves
everything but the counter unchanged; a successful insert stores the
stamped element; two inserts from a fresh buffer leave the counter at 2. -/
theorem claim6_witness :
    (Insert (⟨[⟨1, 5, 0⟩, ⟨2, 5, 1⟩], 2, 0, 0, 2, 1, 2, true⟩ :
        PriorityRingBuffer Nat) 3 5).1 =
      { (⟨[⟨1, 5, 0⟩, ⟨2, 5, 1⟩], 2, 0, 0, 2, 1, 2, true⟩ :
        PriorityRingBuffer Nat) with orderCounter := 3 } ∧
    (⟨7, 42, 0⟩ : Element Nat) ∈
      (Insert (⟨List.replicate 2 (zeroElement Nat), 2, 0, 0, 0, 1, 0, false⟩ :
        PriorityRingBuffer Nat) 7 42).1.elements ∧
    (insertSeq (⟨List.replicate 2 (zeroElement Nat), 2, 0, 0, 0, 1, 0, false⟩ :
        PriorityRingBuffer Nat) [(1, 5), (2, 7)]).orderCounter = 2 :=
  ⟨claim6_insertion_counter.2.1
      (⟨[⟨1, 5, 0⟩, ⟨2, 5, 1⟩], 2, 0, 0, 2, 1, 2, true⟩ :
        PriorityRingBuffer Nat) 3 5 rfl,
   claim6_insertion_counter.2.2.1
      (⟨List.replicate 2 (zeroElement Nat), 2, 0, 0, 0, 1, 0, false⟩ :
        PriorityRingBuffer Nat) 7 42
      ⟨by decide, by decide, by decide, by decide, by decide, by decide⟩ rfl,
   claim6_insertion_counter.2.2.2.2 ⟨2, 1, false, false⟩
      (⟨List.replicate 2 (zeroElement Nat), 2, 0, 0, 0, 1, 0, false⟩ :
        PriorityRingBuffer Nat) rfl [(1, 5), (2, 7)]⟩

end Prb

namespace Prb

variable {T : Type} [Inhabited T]

/-- Claim C3: on a full well-formed buffer with the overwrite guard
enabled, an `Insert` whose priority is at most the head element's priority
(ties included) fails with the `ErrBufferFull` sentinel and changes no
state other than the insertion counter, while an `Insert` with strictly
greater priority succeeds and evicts the old head element: the live
contents afterwards are a permutation of the new element together with the
old live contents minus their head. -/
theorem claim3_overwrite_guard (b : PriorityRingBuffer T) (v : T) (p : Int)
    (hb : Inv b) (hfull : b.size = b.capacity) (hg : b.overwriteGuard = true) :
    (p ≤ (getEl b b.head).Priority →
      Insert b v p = ({ b with orderCounter := b.orderCounter + 1 },
        some .ErrBufferFull)) ∧
    ((getEl b b.head).Priority < p →
      (Insert b v p).2 = none ∧
      (liveList (Insert b v p).1).Perm
        ((⟨v, p, b.orderCounter⟩ : Element T) :: (liveList b).tail)) := by
  obtain ⟨hc, hl, hh, ht, hs, hte⟩ := hb
  have hov : (b.size == b.capacity) = true := by
    rw [hfull]
    exact beq_self_eq_true _
  have hth : b.tail = b.head := by
    rw [hte, hfull, Nat.add_mod_right, Nat.mod_eq_of_lt hh]
  constructor
  · intro hle
    apply insert_reject
    simp [hov, hg, hle]
  · intro hgt
    have hnle : ¬(p ≤ (getEl b b.head).Priority) := by omega
    have hcond : ((b.size == b.capacity) && b.overwriteGuard &&
        decide (p ≤ (getEl b b.head).Priority)) = false := by
      simp [hnle]
    refine ⟨by rw [insert_accept b v p hcond], ?_⟩
    have hs0 : 0 < b.size := by omega
    have hhl : b.head < b.elements.length := by
      rw [hl]
      exact hh
    have htl : b.tail < b.elements.length := by
      rw [hl]
      exact ht
    have hpermA : (liveList (Insert b v p).1).Perm
        (bubbleSteps b.capacity b.head b.size b.bubbleWindow
          (b.elements.set b.tail (⟨v, p, b.orderCounter⟩ : Element T))
          b.tail) := by
      rw [insert_accept b v p hcond]
      refine liveList_full_perm _ ?_ ?_
      · show (bubbleSteps b.capacity b.head b.size b.bubbleWindow
            (b.elements.set b.tail (⟨v, p, b.orderCounter⟩ : Element T))
            b.tail).length = b.capacity
        rw [bubbleSteps_length, List.length_set, hl]
      · show (if (b.size == b.capacity) = true
            then b.size else b.size + 1) = b.capacity
        rw [if_pos hov, hfull]
    have hpermB : (bubbleSteps b.capacity b.head b.size b.bubbleWindow
        (b.elements.set b.tail (⟨v, p, b.orderCounter⟩ : Element T))
        b.tail).Perm
        (b.elements.set b.tail (⟨v, p, b.orderCounter⟩ : Element T)) :=
      bubbleSteps_perm b.capacity b.head b.size b.bubbleWindow
        (b.elements.set b.tail (⟨v, p, b.orderCounter⟩ : Element T)) b.tail
        hc (by rw [List.length_set, hl]) ht
    have hpermC : (b.elements.set b.tail
        (⟨v, p, b.orderCounter⟩ : Element T)).Perm
        ((⟨v, p, b.orderCounter⟩ : Element T) ::
          b.elements.eraseIdx b.tail) :=
      set_perm_cons_eraseIdx b.elements b.tail _ htl
    rw [hth] at hpermA hpermB hpermC
    have hconsb := liveList_cons b hs0 hh
    have hpermD : (liveList b).Perm
        (b.elements.getD b.head (zeroElement T) ::
          b.elements.eraseIdx b.head) :=
      (liveList_full_perm b hl hfull).trans
        (perm_getD_eraseIdx b.elements b.head (zeroElement T) hhl)
    have htail_perm : ((liveList b).tail).Perm
        (b.elements.eraseIdx b.head) := by
      rw [hconsb] at hpermD
      rw [hconsb]
      exact hpermD.cons_inv
    exact hpermA.trans (hpermB.trans (hpermC.trans
      ((htail_perm.symm).cons _)))

/-- Witness for C3: capacity 2 filled with priorities `[5, 5]`; inserting
priority 5 is rejected with `ErrBufferFull` and only the counter moves;
inserting priority 6 succeeds and the live contents become a permutation of
the new element and the old live contents minus the old head. -/
theorem claim3_witness :
    Insert (⟨[⟨1, 5, 0⟩, ⟨2, 5, 1⟩], 2, 0, 0, 2, 1, 2, true⟩ :
        PriorityRingBuffer Nat) 3 5 =
      ({ (⟨[⟨1, 5, 0⟩, ⟨2, 5, 1⟩], 2, 0, 0, 2, 1, 2, true⟩ :
        PriorityRingBuffer Nat) with orderCounter := 3 },
        some .ErrBufferFull) ∧
    ((Insert (⟨[⟨1, 5, 0⟩, ⟨2, 5, 1⟩], 2, 0, 0, 2, 1, 2, true⟩ :
        PriorityRingBuffer Nat) 3 6).2 = none ∧
      (liveList (Insert (⟨[⟨1, 5, 0⟩, ⟨2, 5, 1⟩], 2, 0, 0, 2, 1, 2, true⟩ :
        PriorityRingBuffer Nat) 3 6).1).Perm
        ((⟨3, 6, 2⟩ : Element Nat) ::
          (liveList (⟨[⟨1, 5, 0⟩, ⟨2, 5, 1⟩], 2, 0, 0, 2, 1, 2, true⟩ :
            PriorityRingBuffer Nat)).tail)) :=
  ⟨(claim3_overwrite_guard
      (⟨[⟨1, 5, 0⟩, ⟨2, 5, 1⟩], 2, 0, 0, 2, 1, 2, true⟩ :
        PriorityRingBuffer Nat) 3 5
      ⟨by decide, by decide, by decide, by decide, by decide, by decide⟩
      rfl rfl).1 (by decide),
   (claim3_overwrite_guard
      (⟨[⟨1, 5, 0⟩, ⟨2, 5, 1⟩], 2, 0, 0, 2, 1, 2, true⟩ :
        PriorityRingBuffer Nat) 3 6
      ⟨by decide, by decide, by decide, by decide, by decide, by decide⟩
      rfl rfl).2 (by decide)⟩

end Prb

namespace Prb

/-- Witness for C8: the membership characterisation and the
empty-filter-list behaviour evaluated at a concrete buffer. -/
theorem claim8_witness :
    (1 ∈ Search (⟨[⟨1, 5, 0⟩, ⟨2, 15, 1⟩, ⟨3, 10, 2⟩], 3, 0, 0, 3, 0, 3,
        false⟩ : PriorityRingBuffer Nat) [SearchByMinPriority Nat 10] ↔
      1 < (⟨[⟨1, 5, 0⟩, ⟨2, 15, 1⟩, ⟨3, 10, 2⟩], 3, 0, 0, 3, 0, 3,
        false⟩ : PriorityRingBuffer Nat).size ∧
      ∀ f ∈ [SearchByMinPriority Nat 10],
        f ((liveList (⟨[⟨1, 5, 0⟩, ⟨2, 15, 1⟩, ⟨3, 10, 2⟩], 3, 0, 0, 3, 0, 3,
          false⟩ : PriorityRingBuffer Nat)).getD 1 (zeroElement Nat)) =
          true) ∧
    Search (⟨[⟨1, 5, 0⟩, ⟨2, 15, 1⟩, ⟨3, 10, 2⟩], 3, 0, 0, 3, 0, 3,
        false⟩ : PriorityRingBuffer Nat) [] =
      List.range (⟨[⟨1, 5, 0⟩, ⟨2, 15, 1⟩, ⟨3, 10, 2⟩], 3, 0, 0, 3, 0, 3,
        false⟩ : PriorityRingBuffer Nat).size :=
  ⟨claim8_search_correct.1
      (⟨[⟨1, 5, 0⟩, ⟨2, 15, 1⟩, ⟨3, 10, 2⟩], 3, 0, 0, 3, 0, 3, false⟩ :
        PriorityRingBuffer Nat) [SearchByMinPriority Nat 10] 1,
   claim8_search_correct.2.2.1
      (⟨[⟨1, 5, 0⟩, ⟨2, 15, 1⟩, ⟨3, 10, 2⟩], 3, 0, 0, 3, 0, 3, false⟩ :
        PriorityRingBuffer Nat)⟩

end Prb
